import Mathlib

/-!
Verification of the CodaLab bundle-locator parser and the HTTP error mapping
(both embedded from `codalab/common.py`), and of the archive target-resolution
pipeline exercised by `tests/unit/worker/download_util_test.py`
(modelled from the specification, since `download_util.py` itself is not part
of the sources provided).

Python string primitives (`startswith`, `endswith`, slicing, `split` with a
maxsplit bound) are embedded as executable functions over `List Char` so that
every definition evaluates inside the kernel.
-/

namespace Codalab

/-! ### Python string primitives -/

/-- Python `s.startswith(pre)`. -/
def pyStartsWith (s pre : String) : Bool :=
  pre.data.isPrefixOf s.data

/-- Python `s.endswith(suf)`. -/
def pyEndsWith (s suf : String) : Bool :=
  suf.data.isSuffixOf s.data

/-- Python `s[n:]`. -/
def pyDrop (s : String) (n : Nat) : String :=
  String.mk (s.data.drop n)

/-- Worker for `pySplit`: split a character list on `sep` at most `maxsplit`
times, accumulating the current field in reverse. -/
def pySplitChars (sep : Char) : Nat → List Char → List Char → List (List Char)
  | _, [], cur => [cur.reverse]
  | 0, cs, cur => [cur.reverse ++ cs]
  | Nat.succ m, c :: cs, cur =>
      if c = sep then cur.reverse :: pySplitChars sep m cs []
      else pySplitChars sep (Nat.succ m) cs (c :: cur)

/-- Python `s.split(sep, maxsplit)` for a one-character separator: at most
`maxsplit` splits are performed and the unsplit remainder (separators
included) stays in the final field. -/
def pySplit (sep : Char) (maxsplit : Nat) (s : String) : List String :=
  (pySplitChars sep maxsplit s.data []).map String.mk

/-- Worker for an unbounded Python `s.split(sep)`. -/
def splitChars (sep : Char) : List Char → List Char → List (List Char)
  | [], cur => [cur.reverse]
  | c :: cs, cur =>
      if c = sep then cur.reverse :: splitChars sep cs []
      else splitChars sep cs (c :: cur)

/-! ### `parse_linked_bundle_url` (from `common.py`) -/

/-- `StorageType` from `common.py`. -/
inductive StorageType
  | FILE_STORAGE
  | AZURE_BLOB_STORAGE
  deriving DecidableEq, Repr

/-- `LinkedBundlePath` dataclass from `common.py`.  Python `None` values for
`zip_subpath` and `bundle_uuid` are embedded as `Option.none`. -/
structure LinkedBundlePath where
  storage_type : StorageType
  bundle_path : String
  is_zip : Bool
  uses_beam : Bool
  zip_subpath : Option String
  bundle_uuid : Option String
  deriving DecidableEq, Repr

/-- The failure modes of `parse_linked_bundle_url`.
`unpackError` is the `ValueError` Python raises when
`a, b, c, d, *rest = url.split("/", 4)` has fewer than four values to unpack
("not enough values to unpack"); it is the only failure the code can produce.
`malformedLocator` stands for the dedicated `MalformedLocator` error named by
the specification; it is declared only so the spec's claim about it can be
stated and compared against the code, which never produces it (no such class
exists anywhere in `common.py`). -/
inductive ParseError
  | unpackError
  | malformedLocator
  deriving DecidableEq, Repr

/-- `parse_linked_bundle_url` from `common.py`, line by line:
a URL starting with `"azfs://"` is split (after the 7-character scheme) on
the first four slashes into storage account, container, bundle uuid, contents
file and an optional remainder; `bundle_path` re-joins the scheme with those
four fields; `is_zip` holds iff the contents file ends in `".zip"`;
`zip_subpath` is the remainder head when `is_zip` and a remainder exists,
else `None`.  A URL without the scheme prefix is returned unchanged as local
file storage.  Unpacking fewer than four fields raises
(`ParseError.unpackError`). -/
def parse_linked_bundle_url (url : String) : Except ParseError LinkedBundlePath :=
  if pyStartsWith url "azfs://" then
    match pySplit '/' 4 (pyDrop url 7) with
    | storage_account :: container :: bundle_uuid :: contents_file :: remainder =>
      Except.ok
        { storage_type := StorageType.AZURE_BLOB_STORAGE
          bundle_path :=
            "azfs://" ++ storage_account ++ "/" ++ container ++ "/" ++ bundle_uuid
              ++ "/" ++ contents_file
          is_zip := pyEndsWith contents_file ".zip"
          uses_beam := true
          zip_subpath :=
            if pyEndsWith contents_file ".zip" && !remainder.isEmpty then remainder.head?
            else none
          bundle_uuid := some bundle_uuid }
    | _ => Except.error ParseError.unpackError
  else
    Except.ok
      { storage_type := StorageType.FILE_STORAGE
        bundle_path := url
        is_zip := false
        uses_beam := false
        zip_subpath := none
        bundle_uuid := none }

/-! ### Exceptions and the HTTP error mapping (from `common.py`) -/

/-- The exception classes relevant to `common.py`: the classes it declares,
plus Python's built-in `ValueError` and `Exception` which they extend. -/
inductive ExcClass
  | IntegrityError
  | PreconditionViolation
  | UsageError
  | NotFoundError
  | AuthorizationError
  | PermissionError
  | LoginPermissionError
  | ValueErrorCls
  | ExceptionCls
  deriving DecidableEq, Repr

/-- The inheritance chain of each class (itself first), read off the class
declarations in `common.py`: `NotFoundError`, `AuthorizationError` and
`PermissionError` extend `UsageError`; `IntegrityError`,
`PreconditionViolation`, `UsageError` and `LoginPermissionError` extend
`ValueError`; `ValueError` extends `Exception`. -/
def ancestors : ExcClass → List ExcClass
  | ExcClass.IntegrityError =>
      [ExcClass.IntegrityError, ExcClass.ValueErrorCls, ExcClass.ExceptionCls]
  | ExcClass.PreconditionViolation =>
      [ExcClass.PreconditionViolation, ExcClass.ValueErrorCls, ExcClass.ExceptionCls]
  | ExcClass.UsageError =>
      [ExcClass.UsageError, ExcClass.ValueErrorCls, ExcClass.ExceptionCls]
  | ExcClass.NotFoundError =>
      [ExcClass.NotFoundError, ExcClass.UsageError, ExcClass.ValueErrorCls,
       ExcClass.ExceptionCls]
  | ExcClass.AuthorizationError =>
      [ExcClass.AuthorizationError, ExcClass.UsageError, ExcClass.ValueErrorCls,
       ExcClass.ExceptionCls]
  | ExcClass.PermissionError =>
      [ExcClass.PermissionError, ExcClass.UsageError, ExcClass.ValueErrorCls,
       ExcClass.ExceptionCls]
  | ExcClass.LoginPermissionError =>
      [ExcClass.LoginPermissionError, ExcClass.ValueErrorCls, ExcClass.ExceptionCls]
  | ExcClass.ValueErrorCls => [ExcClass.ValueErrorCls, ExcClass.ExceptionCls]
  | ExcClass.ExceptionCls => [ExcClass.ExceptionCls]

/-- A Python exception value: its most-specific class and its message
(`str(e)`). -/
structure PyExc where
  cls : ExcClass
  msg : String
  deriving DecidableEq, Repr

/-- Python `isinstance(e, c)` over the hierarchy above. -/
def isinstance (e : PyExc) (c : ExcClass) : Bool :=
  (ancestors e.cls).contains c

/-- `http_codes_and_exceptions` from `common.py`, in its source order
("listed in order of most specific to least specific"): 403 `FORBIDDEN` /
`PermissionError`, 401 `UNAUTHORIZED` / `AuthorizationError`, 404
`NOT_FOUND` / `NotFoundError`, 400 `BAD_REQUEST` / `UsageError`. -/
def http_codes_and_exceptions : List (Nat × ExcClass) :=
  [(403, ExcClass.PermissionError), (401, ExcClass.AuthorizationError),
   (404, ExcClass.NotFoundError), (400, ExcClass.UsageError)]

/-- `exception_to_http_error` from `common.py`: the first pair whose class
matches by `isinstance` gives the code, else 500 `INTERNAL_SERVER_ERROR`;
the message is `str(e)` either way. -/
def exception_to_http_error (e : PyExc) : Nat × String :=
  match http_codes_and_exceptions.find? (fun p => isinstance e p.2) with
  | some p => (p.1, e.msg)
  | none => (500, e.msg)

/-- `http_error_to_exception` from `common.py`: the first pair with the
given code yields its exception class; otherwise any 4xx code yields
`UsageError` and anything else a bare `Exception`. -/
def http_error_to_exception (code : Nat) (message : String) : PyExc :=
  match http_codes_and_exceptions.find? (fun p => p.1 == code) with
  | some p => PyExc.mk p.2 message
  | none =>
      if 400 ≤ code ∧ code < 500 then PyExc.mk ExcClass.UsageError message
      else PyExc.mk ExcClass.ExceptionCls message

/-! ### The archive target-resolution pipeline

`get_target_info` lives in `codalab/worker/download_util.py`, which is not
among the sources provided; only its unit test
(`tests/unit/worker/download_util_test.py`) is.  The definitions below are
therefore modelled from the specification (§3, §4.2–§4.4, §8) and validated
against every assertion of that test. -/

/-- Modelled from the spec (§3): the kind of a node, `File` or `Directory`. -/
inductive EntryKind
  | file
  | directory
  deriving DecidableEq, Repr

/-- Modelled from the spec (§3 ArchiveEntry): one entry of the archive's
physical entry stream, in write order, with its raw (unnormalized) path,
kind, size in bytes and permission bits. -/
structure StreamEntry where
  rawPath : String
  kind : EntryKind
  size : Nat
  mode : Nat
  deriving DecidableEq, Repr

/-- Modelled from the spec (§4.2): path normalization — split on `/`, strip
leading `./` and collapse empty segments (i.e. drop `""` and `"."`
segments). -/
def normalizePath (s : String) : List String :=
  ((splitChars '/' s.data []).map String.mk).filter (fun seg => seg != "" && seg != ".")

/-- Modelled from the spec (§3 ArchiveIndex): a node of the index — a
normalized path, kind, size and mode. -/
structure IndexNode where
  path : List String
  kind : EntryKind
  size : Nat
  mode : Nat
  deriving DecidableEq, Repr

/-- Whether the index already holds a node at path `p`. -/
def containsPath (idx : List IndexNode) (p : List String) : Bool :=
  idx.any (fun n => n.path == p)

/-- All nonempty prefixes of a path, shortest first, the path itself
included. -/
def chainPrefixes : List String → List (List String)
  | [] => []
  | x :: xs => [x] :: (chainPrefixes xs).map (fun q => x :: q)

/-- The node inserted for prefix `q` of a stream entry whose normalized path
is `p`: at `q = p` the entry's own kind, size (0 for directories) and mode;
a synthesized proper-prefix directory gets size 0 and the default mode 0644
(decimal 420). -/
def nodeFor (e : StreamEntry) (p q : List String) : IndexNode :=
  { path := q
    kind := if q == p && e.kind == EntryKind.file then EntryKind.file else EntryKind.directory
    size := if q == p && e.kind == EntryKind.file then e.size else 0
    mode := if q == p then e.mode else 420 }

/-- Append the node for prefix `q` unless a node at that path already
exists (duplicate entries are skipped). -/
def addMissing (e : StreamEntry) (p : List String) (idx : List IndexNode) (q : List String) :
    List IndexNode :=
  if containsPath idx q then idx else idx ++ [nodeFor e p q]

/-- Modelled from the spec (§4.2 ArchiveIndexer): process one stream entry —
normalize its path, ensure every proper path-prefix directory exists
(synthesizing missing ones at first need, shortest first), then append the
entry itself if not already present. -/
def addEntry (idx : List IndexNode) (e : StreamEntry) : List IndexNode :=
  (chainPrefixes (normalizePath e.rawPath)).foldl (addMissing e (normalizePath e.rawPath)) idx

/-- Modelled from the spec (§4.2): walk the entries in physical order,
building the ordered, gap-free index. -/
def buildIndex (entries : List StreamEntry) : List IndexNode :=
  entries.foldl addEntry []

/-- `p` is an immediate child path of directory path `d`. -/
def isChildPath (d p : List String) : Bool :=
  p.length == d.length + 1 && d.isPrefixOf p

/-- The nodes of the index that are immediate children of `d`, in index
order. -/
def childrenOf (idx : List IndexNode) (d : List String) : List IndexNode :=
  idx.filter (fun n => isChildPath d n.path)

/-- Modelled from the spec (§6 TargetInfo output): `name`, `type`, `size`,
`perm`, and an optional ordered `contents` list (directories only, only
while depth remains). -/
inductive TargetInfo where
  | mk (name : String) (type : EntryKind) (size : Nat) (perm : Nat)
      (contents : Option (List TargetInfo)) : TargetInfo
  deriving Repr

/-- The `name` field of a `TargetInfo`. -/
def TargetInfo.name : TargetInfo → String
  | TargetInfo.mk n _ _ _ _ => n

/-- The `type` field of a `TargetInfo`. -/
def TargetInfo.type : TargetInfo → EntryKind
  | TargetInfo.mk _ t _ _ _ => t

/-- The `size` field of a `TargetInfo`. -/
def TargetInfo.size : TargetInfo → Nat
  | TargetInfo.mk _ _ s _ _ => s

/-- The `perm` field of a `TargetInfo`. -/
def TargetInfo.perm : TargetInfo → Nat
  | TargetInfo.mk _ _ _ p _ => p

/-- The `contents` field of a `TargetInfo`. -/
def TargetInfo.contents : TargetInfo → Option (List TargetInfo)
  | TargetInfo.mk _ _ _ _ c => c

/-- The last segment of a path (the node's display name). -/
def lastName : List String → String
  | [] => ""
  | [x] => x
  | _ :: xs => lastName xs

/-- Modelled from the spec (§4.4 TreeSerializer): serialize an in-archive
node with a depth budget — depth 0 (or a file) yields metadata only with no
contents field; depth `d+1` on a directory includes one level of children,
each serialized with depth `d`. -/
def serializeNode (idx : List IndexNode) : Nat → IndexNode → TargetInfo
  | 0, n => TargetInfo.mk (lastName n.path) n.kind n.size n.mode none
  | Nat.succ d, n =>
      match n.kind with
      | EntryKind.file => TargetInfo.mk (lastName n.path) n.kind n.size n.mode none
      | EntryKind.directory =>
          TargetInfo.mk (lastName n.path) n.kind n.size n.mode
            (some ((childrenOf idx n.path).map (fun c => serializeNode idx d c)))

/-- Modelled from the spec (§3 invariants 1 and 3, §4.3): the whole-bundle
root of an archive-backed bundle reports the raw byte length of the stored
archive object as its size and the fixed full-access sentinel 511 (0o777) as
its mode; with depth remaining, its children are the top-level index
nodes. -/
def serializeArchiveRoot (idx : List IndexNode) (bundleName : String) (byteLen : Nat) :
    Nat → TargetInfo
  | 0 => TargetInfo.mk bundleName EntryKind.directory byteLen 511 none
  | Nat.succ d =>
      TargetInfo.mk bundleName EntryKind.directory byteLen 511
        (some ((childrenOf idx []).map (fun c => serializeNode idx d c)))

/-- Modelled from the spec (§2, §6): the physical contents of a remote
bundle — either a plain stored object of some byte length, or an
archive-backed bundle given by its entry stream and the archive object's
byte length. -/
inductive BundleContents where
  | singleFile (byteLen : Nat)
  | archive (entries : List StreamEntry) (byteLen : Nat)

/-- Modelled from the spec (§4.3 TargetResolver + §4.4 TreeSerializer):
`get_target_info` — an empty subpath resolves to the bundle root (the stored
object itself, under the root size/mode invariants); a non-empty subpath is
looked up by exact normalized-segment match in the index, absence yielding
`NotFound` (`none`). -/
def get_target_info (b : BundleContents) (bundleName : String) (subpath : List String)
    (depth : Nat) : Option TargetInfo :=
  match b with
  | BundleContents.singleFile byteLen =>
      if subpath = [] then some (TargetInfo.mk bundleName EntryKind.file byteLen 511 none)
      else none
  | BundleContents.archive entries byteLen =>
      if subpath = [] then
        some (serializeArchiveRoot (buildIndex entries) bundleName byteLen depth)
      else
        ((buildIndex entries).find? (fun n => n.path == subpath)).map
          (serializeNode (buildIndex entries) depth)

/-! ### Claim-side definitions for the children-order claim -/

/-- The immediate child path of directory `d` implied by a normalized entry
path `p`: when `p` strictly extends `d`, the child is `d` extended by the
next segment of `p`; otherwise `p` implies no child of `d`. -/
def impliedChild : List String → List String → Option (List String)
  | [], [] => none
  | [], x :: _ => some [x]
  | _ :: _, [] => none
  | y :: d, x :: p =>
      if y = x then (impliedChild d p).map (fun c => x :: c) else none

/-- Keep only the first occurrence of each element, in order, skipping
elements already `seen`. -/
def firstOccurrences (seen : List (List String)) : List (List String) → List (List String)
  | [] => []
  | a :: l =>
      if a ∈ seen then firstOccurrences seen l
      else a :: firstOccurrences (a :: seen) l

/-- The immediate children of `d`, as paths, in order of first physical
appearance in the archive's entry stream: each stream entry implies at most
one child of `d`, and only the first appearance of each child counts. -/
def firstAppearanceChildren (entries : List StreamEntry) (d : List String) :
    List (List String) :=
  firstOccurrences [] (entries.filterMap (fun e => impliedChild d (normalizePath e.rawPath)))

/-- Every path-prefix node implied by the entry stream, with multiplicity,
in stream order. -/
def impliedPaths (entries : List StreamEntry) : List (List String) :=
  (entries.map (fun e => chainPrefixes (normalizePath e.rawPath))).flatten

/-- Strict lexicographic order on character lists. -/
def charListLt : List Char → List Char → Bool
  | [], [] => false
  | [], _ :: _ => true
  | _ :: _, [] => false
  | a :: as, b :: bs => if a < b then true else if b < a then false else charListLt as bs

/-- Whether a list of names is sorted in (non-strict) lexicographic order. -/
def isLexSorted : List String → Bool
  | [] => true
  | [_] => true
  | a :: b :: l => !charListLt b.data a.data && isLexSorted (b :: l)

/-! ### Test fixture

The archive written by `AzureBlobGetTargetInfoTest.test_nested_directories`:
seven tar entries in write order (default tar mode 0644 = 420), inside an
archive object of 246 bytes. -/

/-- The entry stream of the test archive, in physical write order. -/
def testEntries : List StreamEntry :=
  [StreamEntry.mk "./README.md" EntryKind.file 11 420,
   StreamEntry.mk "./src" EntryKind.directory 0 420,
   StreamEntry.mk "./src/test.sh" EntryKind.file 7 420,
   StreamEntry.mk "./dist" EntryKind.directory 0 420,
   StreamEntry.mk "./dist/a" EntryKind.directory 0 420,
   StreamEntry.mk "./dist/a/b" EntryKind.directory 0 420,
   StreamEntry.mk "./dist/a/b/test2.sh" EntryKind.file 8 420]

/-- The test bundle: the archive above stored as a 246-byte object. -/
def testBundle : BundleContents := BundleContents.archive testEntries 246

end Codalab

namespace Codalab

/-! ### Parser theorems -/

/-- Characterization of the remote branch of `parse_linked_bundle_url`:
with the scheme prefix present and the split yielding at least four fields,
the returned descriptor is fully determined. -/
theorem parse_remote_eq (url a c u f : String) (rem : List String)
    (h : pyStartsWith url "azfs://" = true)
    (hsplit : pySplit '/' 4 (pyDrop url 7) = a :: c :: u :: f :: rem) :
    parse_linked_bundle_url url =
      Except.ok
        { storage_type := StorageType.AZURE_BLOB_STORAGE
          bundle_path := "azfs://" ++ a ++ "/" ++ c ++ "/" ++ u ++ "/" ++ f
          is_zip := pyEndsWith f ".zip"
          uses_beam := true
          zip_subpath :=
            if pyEndsWith f ".zip" && !rem.isEmpty then rem.head? else none
          bundle_uuid := some u } := by
  simp [parse_linked_bundle_url, h, hsplit]

/-- C7: a locator without the remote scheme prefix parses to a Local
descriptor: the stored path equals the input unchanged, `is_zip` and
`uses_beam` are false, and `zip_subpath` and `bundle_uuid` are null. -/
theorem parse_local_descriptor (url : String)
    (h : pyStartsWith url "azfs://" = false) :
    parse_linked_bundle_url url =
      Except.ok
        { storage_type := StorageType.FILE_STORAGE
          bundle_path := url
          is_zip := false
          uses_beam := false
          zip_subpath := none
          bundle_uuid := none } := by
  simp [parse_linked_bundle_url, h]

/-- Witness for C7 at the local path `"/tmp/codalab/bundle"`. -/
theorem parse_local_descriptor_witness :
    pyStartsWith "/tmp/codalab/bundle" "azfs://" = false ∧
    parse_linked_bundle_url "/tmp/codalab/bundle" =
      Except.ok
        { storage_type := StorageType.FILE_STORAGE
          bundle_path := "/tmp/codalab/bundle"
          is_zip := false
          uses_beam := false
          zip_subpath := none
          bundle_uuid := none } :=
  ⟨by decide, parse_local_descriptor "/tmp/codalab/bundle" (by decide)⟩

/-- C2 (code evaluated at the failing input): the parser classifies an object
name ending in `".tar.gz"` as NOT archive-backed (`is_zip = false`), because
the code only tests for the `".zip"` suffix; the same locator with a `".zip"`
object is classified archive-backed. -/
theorem parse_targz_not_archive :
    parse_linked_bundle_url "azfs://storageclwsdev0/bundles/uuid/contents.tar.gz" =
      Except.ok
        { storage_type := StorageType.AZURE_BLOB_STORAGE
          bundle_path := "azfs://storageclwsdev0/bundles/uuid/contents.tar.gz"
          is_zip := false
          uses_beam := true
          zip_subpath := none
          bundle_uuid := some "uuid" } ∧
    parse_linked_bundle_url "azfs://storageclwsdev0/bundles/uuid/contents.zip" =
      Except.ok
        { storage_type := StorageType.AZURE_BLOB_STORAGE
          bundle_path := "azfs://storageclwsdev0/bundles/uuid/contents.zip"
          is_zip := true
          uses_beam := true
          zip_subpath := none
          bundle_uuid := some "uuid" } :=
  ⟨rfl, rfl⟩

/-- C3 (counterexample): a remote-scheme locator lacking the required
segments fails with the generic unpacking `ValueError`, which is not the
dedicated `MalformedLocator` error the claim names. -/
theorem parse_missing_segments_counterexample :
    parse_linked_bundle_url "azfs://a/b" = Except.error ParseError.unpackError ∧
    ParseError.unpackError ≠ ParseError.malformedLocator :=
  ⟨rfl, by decide⟩

/-- C3 (amended): a remote-scheme locator whose post-scheme split yields
fewer than the four required fields fails with the generic unpacking
`ValueError` (`ParseError.unpackError`); no dedicated `MalformedLocator`
error exists in the code. -/
theorem parse_missing_segments (url : String)
    (h : pyStartsWith url "azfs://" = true)
    (hlen : (pySplit '/' 4 (pyDrop url 7)).length < 4) :
    parse_linked_bundle_url url = Except.error ParseError.unpackError := by
  unfold parse_linked_bundle_url
  rw [if_pos h]
  split
  · rename_i a c u f rem heq
    rw [heq] at hlen
    simp at hlen
    omega
  · rfl

/-- Witness for the amended C3 at the locator `"azfs://a/b"`. -/
theorem parse_missing_segments_witness :
    pyStartsWith "azfs://a/b" "azfs://" = true ∧
    (pySplit '/' 4 (pyDrop "azfs://a/b" 7)).length < 4 ∧
    parse_linked_bundle_url "azfs://a/b" = Except.error ParseError.unpackError :=
  ⟨by decide, by decide, parse_missing_segments "azfs://a/b" (by decide) (by decide)⟩

/-- C8: for a remote locator with at least four fields, the descriptor's
`bundle_path` is exactly the scheme plus the first four fields (storage
account, container, bundle uuid, object name); trailing internal-path
segments are excluded from it, surviving at most as the `zip_subpath`
hint drawn from the remainder. -/
theorem parse_bundle_path_four_segments (url a c u f : String) (rem : List String)
    (lbp : LinkedBundlePath)
    (h : pyStartsWith url "azfs://" = true)
    (hsplit : pySplit '/' 4 (pyDrop url 7) = a :: c :: u :: f :: rem)
    (hok : parse_linked_bundle_url url = Except.ok lbp) :
    lbp.bundle_path = "azfs://" ++ a ++ "/" ++ c ++ "/" ++ u ++ "/" ++ f ∧
    (lbp.zip_subpath = none ∨ lbp.zip_subpath = rem.head?) := by
  rw [parse_remote_eq url a c u f rem h hsplit] at hok
  cases hok
  constructor
  · rfl
  · by_cases hz : (pyEndsWith f ".zip" && !rem.isEmpty) = true
    · right
      simp [hz]
    · left
      simp [hz]

/-- Witness for C8 at a remote locator carrying two trailing path
segments after the object name. -/
theorem parse_bundle_path_four_segments_witness :
    pyStartsWith "azfs://acct/cont/0x1/obj.zip/p/q" "azfs://" = true ∧
    pySplit '/' 4 (pyDrop "azfs://acct/cont/0x1/obj.zip/p/q" 7) =
      ["acct", "cont", "0x1", "obj.zip", "p/q"] ∧
    ({ storage_type := StorageType.AZURE_BLOB_STORAGE
       bundle_path := "azfs://acct/cont/0x1/obj.zip"
       is_zip := true
       uses_beam := true
       zip_subpath := some "p/q"
       bundle_uuid := some "0x1" } : LinkedBundlePath).bundle_path =
      "azfs://" ++ "acct" ++ "/" ++ "cont" ++ "/" ++ "0x1" ++ "/" ++ "obj.zip" :=
  ⟨by decide, by decide,
    (parse_bundle_path_four_segments "azfs://acct/cont/0x1/obj.zip/p/q"
      "acct" "cont" "0x1" "obj.zip" ["p/q"] _ (by decide) (by decide) rfl).1⟩

/-- C10: for a remote locator with at least four fields, `zip_subpath` is
null whenever the object name is not classified as an archive (even when
trailing segments are present), and it is non-null only when the object is
archive-classified and a trailing remainder exists. -/
theorem parse_zip_subpath_only_for_archives (url a c u f : String)
    (rem : List String) (lbp : LinkedBundlePath)
    (h : pyStartsWith url "azfs://" = true)
    (hsplit : pySplit '/' 4 (pyDrop url 7) = a :: c :: u :: f :: rem)
    (hok : parse_linked_bundle_url url = Except.ok lbp) :
    (pyEndsWith f ".zip" = false → lbp.zip_subpath = none) ∧
    (lbp.zip_subpath ≠ none → pyEndsWith f ".zip" = true ∧ rem ≠ []) := by
  rw [parse_remote_eq url a c u f rem h hsplit] at hok
  cases hok
  constructor
  · intro hnz
    simp [hnz]
  · intro hne
    by_cases hz : (pyEndsWith f ".zip" && !rem.isEmpty) = true
    · simp only [Bool.and_eq_true, Bool.not_eq_true'] at hz
      refine ⟨hz.1, ?_⟩
      intro hrem
      rw [hrem] at hz
      simp at hz
    · exfalso
      apply hne
      simp [hz]

/-- Witness for C10 at a non-archive remote locator with two trailing
segments: `zip_subpath` is null. -/
theorem parse_zip_subpath_only_for_archives_witness :
    pyEndsWith "obj" ".zip" = false ∧
    ({ storage_type := StorageType.AZURE_BLOB_STORAGE
       bundle_path := "azfs://acct/cont/0x2/obj"
       is_zip := false
       uses_beam := true
       zip_subpath := none
       bundle_uuid := some "0x2" } : LinkedBundlePath).zip_subpath = none :=
  ⟨by decide,
    (parse_zip_subpath_only_for_archives "azfs://acct/cont/0x2/obj/p/q"
      "acct" "cont" "0x2" "obj" ["p/q"] _ (by decide) (by decide) rfl).1 (by decide)⟩

/-! ### HTTP error mapping theorems -/

/-- C9: for an exception of any of the four mapped types, translating to an
HTTP code and back yields an exception of the same most-specific class with
the same message. -/
theorem http_error_roundtrip (e : PyExc)
    (h : e.cls = ExcClass.PermissionError ∨ e.cls = ExcClass.AuthorizationError ∨
         e.cls = ExcClass.NotFoundError ∨ e.cls = ExcClass.UsageError) :
    http_error_to_exception (exception_to_http_error e).1 (exception_to_http_error e).2 = e := by
  obtain ⟨cls, msg⟩ := e
  simp only at h
  rcases h with h | h | h | h <;> (subst h; rfl)

/-- Witness for C9 at a `NotFoundError` carrying a concrete message:
the code is 404 and the round trip restores the exception. -/
theorem http_error_roundtrip_witness :
    ((PyExc.mk ExcClass.NotFoundError "no such bundle").cls = ExcClass.PermissionError ∨
     (PyExc.mk ExcClass.NotFoundError "no such bundle").cls = ExcClass.AuthorizationError ∨
     (PyExc.mk ExcClass.NotFoundError "no such bundle").cls = ExcClass.NotFoundError ∨
     (PyExc.mk ExcClass.NotFoundError "no such bundle").cls = ExcClass.UsageError) ∧
    exception_to_http_error (PyExc.mk ExcClass.NotFoundError "no such bundle") =
      (404, "no such bundle") ∧
    http_error_to_exception 404 "no such bundle" =
      PyExc.mk ExcClass.NotFoundError "no such bundle" :=
  ⟨Or.inr (Or.inr (Or.inl rfl)), rfl,
    http_error_roundtrip (PyExc.mk ExcClass.NotFoundError "no such bundle")
      (Or.inr (Or.inr (Or.inl rfl)))⟩

/-! ### Archive pipeline theorems -/

/-- C1: the root of an archive-backed bundle (empty subpath) reports as its
size the raw byte length of the stored archive object, whatever the
archive's internal entries are and whatever the depth. -/
theorem archive_root_size_eq_byte_length (entries : List StreamEntry) (byteLen : Nat)
    (bname : String) (depth : Nat) :
    (get_target_info (BundleContents.archive entries byteLen) bname [] depth).map
        TargetInfo.size = some byteLen := by
  cases depth <;> rfl

/-- C6: the root of an archive-backed bundle (empty subpath) reports the
fixed full-access sentinel 511 (0o777) as its permission bits, whatever
permission metadata the archive's entries record and whatever the depth. -/
theorem archive_root_perm_sentinel (entries : List StreamEntry) (byteLen : Nat)
    (bname : String) (depth : Nat) :
    (get_target_info (BundleContents.archive entries byteLen) bname [] depth).map
        TargetInfo.perm = some 511 := by
  cases depth <;> rfl

/-- C4: serializing any resolved node with depth 0 yields a `TargetInfo`
with no contents field, whatever the bundle, subpath and node kind. -/
theorem depth_zero_no_contents (b : BundleContents) (bname : String)
    (subpath : List String) (ti : TargetInfo)
    (h : get_target_info b bname subpath 0 = some ti) :
    ti.contents = none := by
  cases b with
  | singleFile byteLen =>
    by_cases hs : subpath = []
    · subst hs
      simp [get_target_info] at h
      subst h
      rfl
    · simp [get_target_info, hs] at h
  | archive entries byteLen =>
    by_cases hs : subpath = []
    · subst hs
      simp [get_target_info, serializeArchiveRoot] at h
      subst h
      rfl
    · simp only [get_target_info, hs, if_false, Option.map_eq_some'] at h
      obtain ⟨n, hfind, hser⟩ := h
      subst hser
      cases hk : n.kind <;> simp [serializeNode, hk, TargetInfo.contents]

/-- Witness for C4: the `src` directory of the test archive serialized at
depth 0 carries no contents field. -/
theorem depth_zero_no_contents_witness :
    get_target_info testBundle "bundle" ["src"] 0 =
      some (TargetInfo.mk "src" EntryKind.directory 0 420 none) ∧
    (TargetInfo.mk "src" EntryKind.directory 0 420 none).contents = none :=
  ⟨rfl,
    depth_zero_no_contents testBundle "bundle" ["src"]
      (TargetInfo.mk "src" EntryKind.directory 0 420 none) rfl⟩

/-! ### Children order: supporting lemmas -/

/-- Every element of `chainPrefixes p` is a nonempty path. -/
theorem chainPrefixes_ne_nil (p : List String) : ∀ q ∈ chainPrefixes p, q ≠ [] := by
  induction p with
  | nil => intro q hq; simp [chainPrefixes] at hq
  | cons x xs ih =>
    intro q hq
    simp only [chainPrefixes, List.mem_cons, List.mem_map] at hq
    rcases hq with rfl | ⟨q', hq', rfl⟩
    · simp
    · simp

/-- The prefixes of a path are pairwise distinct. -/
theorem chainPrefixes_nodup (p : List String) : (chainPrefixes p).Nodup := by
  induction p with
  | nil => simp [chainPrefixes]
  | cons x xs ih =>
    rw [chainPrefixes, List.nodup_cons]
    constructor
    · intro hmem
      rw [List.mem_map] at hmem
      obtain ⟨q', hq', heq⟩ := hmem
      simp only [List.cons.injEq, true_and] at heq
      exact chainPrefixes_ne_nil xs q' hq' heq
    · exact ih.map List.cons_injective

/-- `containsPath` decides membership of a path among the index's paths. -/
theorem containsPath_iff (idx : List IndexNode) (q : List String) :
    containsPath idx q = true ↔ q ∈ idx.map IndexNode.path := by
  simp [containsPath, List.any_eq_true, List.mem_map]

/-- `containsPath` over an appended singleton. -/
theorem containsPath_append_single (idx : List IndexNode) (n : IndexNode) (q : List String) :
    containsPath (idx ++ [n]) q = (containsPath idx q || (n.path == q)) := by
  simp [containsPath, List.any_append]

/-- Paths present after folding `addMissing` over a list of candidate
paths: exactly the old paths plus the candidates. -/
theorem mem_foldl_addMissing (e : StreamEntry) (p : List String) (qs : List (List String)) :
    ∀ (idx : List IndexNode) (q : List String),
      q ∈ (qs.foldl (addMissing e p) idx).map IndexNode.path ↔
        q ∈ idx.map IndexNode.path ∨ q ∈ qs := by
  induction qs with
  | nil => intro idx q; simp
  | cons q0 qs ih =>
    intro idx q
    rw [List.foldl_cons, ih]
    unfold addMissing
    by_cases h : containsPath idx q0 = true
    · rw [if_pos h]
      have h0 := (containsPath_iff idx q0).mp h
      constructor
      · rintro (hq | hq)
        · exact Or.inl hq
        · exact Or.inr (List.mem_cons_of_mem _ hq)
      · rintro (hq | hq)
        · exact Or.inl hq
        · rcases List.mem_cons.mp hq with rfl | hq
          · exact Or.inl h0
          · exact Or.inr hq
    · rw [if_neg h]
      rw [List.map_append]
      simp only [nodeFor, List.mem_append, List.mem_cons, List.map_cons, List.map_nil,
        List.mem_singleton, List.not_mem_nil, or_false]
      tauto

/-- Children paths present after folding `addMissing` over pairwise-distinct
candidate paths: the old children followed by the candidate children that
were missing, in candidate order. -/
theorem children_foldl_addMissing (e : StreamEntry) (p d : List String)
    (qs : List (List String)) :
    ∀ (idx : List IndexNode), qs.Nodup →
      (childrenOf (qs.foldl (addMissing e p) idx) d).map IndexNode.path =
        (childrenOf idx d).map IndexNode.path ++
          qs.filter (fun q => isChildPath d q && !containsPath idx q) := by
  induction qs with
  | nil => intro idx _; simp
  | cons q0 qs ih =>
    intro idx hnd
    rw [List.nodup_cons] at hnd
    obtain ⟨hq0, hnd⟩ := hnd
    rw [List.foldl_cons, ih _ hnd]
    by_cases h : containsPath idx q0 = true
    · simp only [addMissing, h, if_true, List.filter_cons, Bool.not_true, Bool.and_false]
      simp
    · have hfalse : containsPath idx q0 = false := by
        simp only [Bool.not_eq_true] at h
        exact h
      simp only [addMissing, hfalse, Bool.false_eq_true, if_false]
      have hchild : (childrenOf (idx ++ [nodeFor e p q0]) d).map IndexNode.path =
          (childrenOf idx d).map IndexNode.path ++
            (if isChildPath d q0 then [q0] else []) := by
        rw [childrenOf, List.filter_append]
        rw [List.map_append]
        rw [childrenOf]
        congr 1
        simp only [List.filter_cons, List.filter_nil, nodeFor]
        by_cases hic : isChildPath d q0 = true <;> simp [hic]
      rw [hchild]
      have hfc : qs.filter
            (fun q => isChildPath d q && !containsPath (idx ++ [nodeFor e p q0]) q) =
          qs.filter (fun q => isChildPath d q && !containsPath idx q) := by
        apply List.filter_congr
        intro q hq
        have hne : ¬(q0 = q) := fun hh => hq0 (hh ▸ hq)
        rw [containsPath_append_single]
        have : ((nodeFor e p q0).path == q) = false := by
          simp only [nodeFor]
          exact beq_eq_false_iff_ne.mpr hne
        rw [this, Bool.or_false]
      rw [hfc]
      rw [List.filter_cons]
      have hcond : (isChildPath d q0 && !containsPath idx q0) = isChildPath d q0 := by
        rw [hfalse]
        simp
      rw [hcond]
      by_cases hic : isChildPath d q0 = true <;> simp [hic, List.append_assoc]

/-- Among the prefixes of `p`, exactly the path computed by `impliedChild`
is an immediate child of `d`. -/
theorem filter_chainPrefixes (d p : List String) :
    (chainPrefixes p).filter (fun q => isChildPath d q) =
      match impliedChild d p with
      | some c => [c]
      | none => [] := by
  induction p generalizing d with
  | nil => cases d <;> simp [chainPrefixes, impliedChild]
  | cons x p ih =>
    cases d with
    | nil =>
      rw [chainPrefixes, List.filter_cons]
      have h1 : isChildPath [] [x] = true := by simp [isChildPath]
      rw [h1]
      have h2 : ((chainPrefixes p).map (fun q => x :: q)).filter
          (fun q => isChildPath [] q) = [] := by
        rw [List.filter_eq_nil_iff]
        intro q hq
        rw [List.mem_map] at hq
        obtain ⟨q', hq', rfl⟩ := hq
        have hne := chainPrefixes_ne_nil p q' hq'
        cases q' with
        | nil => exact absurd rfl hne
        | cons z zs => simp [isChildPath]
      rw [h2]
      rfl
    | cons y d =>
      rw [chainPrefixes, List.filter_cons]
      have h1 : isChildPath (y :: d) [x] = false := by
        simp [isChildPath]
      rw [h1]
      simp only [Bool.false_eq_true, if_false]
      by_cases hyx : y = x
      · subst hyx
        rw [List.filter_map]
        have hcomp : ((fun q => isChildPath (y :: d) q) ∘ (fun q => y :: q)) =
            fun q => isChildPath d q := by
          funext q
          simp [isChildPath, List.isPrefixOf]
        rw [hcomp, ih d]
        rw [impliedChild, if_pos rfl]
        cases impliedChild d p <;> simp
      · have h2 : ((chainPrefixes p).map (fun q => x :: q)).filter
            (fun q => isChildPath (y :: d) q) = [] := by
          rw [List.filter_eq_nil_iff]
          intro q hq
          rw [List.mem_map] at hq
          obtain ⟨q', hq', rfl⟩ := hq
          simp [isChildPath, List.isPrefixOf, hyx]
        rw [h2]
        rw [impliedChild, if_neg hyx]

/-- The path `impliedChild` returns is an immediate child of `d`. -/
theorem isChildPath_of_impliedChild (d : List String) :
    ∀ (p c : List String), impliedChild d p = some c → isChildPath d c = true := by
  induction d with
  | nil =>
    intro p c h
    cases p with
    | nil => simp [impliedChild] at h
    | cons x p' =>
      rw [impliedChild] at h
      cases h
      simp [isChildPath]
  | cons y d ih =>
    intro p c h
    cases p with
    | nil => simp [impliedChild] at h
    | cons x p' =>
      rw [impliedChild] at h
      by_cases hyx : y = x
      · rw [if_pos hyx] at h
        subst hyx
        rw [Option.map_eq_some'] at h
        obtain ⟨c', hc', rfl⟩ := h
        have hch := ih p' c' hc'
        simp only [isChildPath, Bool.and_eq_true, beq_iff_eq] at hch ⊢
        refine ⟨?_, ?_⟩
        · simp [hch.1]
        · simp [List.isPrefixOf, hch.2]
      · rw [if_neg hyx] at h
        cases h

/-- For a path shaped as an immediate child of `d`, membership among the
prefixes of `p` is the same as being the child of `d` implied by `p`. -/
theorem mem_chainPrefixes_iff_impliedChild (d c : List String)
    (hc : isChildPath d c = true) (p : List String) :
    c ∈ chainPrefixes p ↔ impliedChild d p = some c := by
  have hf := filter_chainPrefixes d p
  constructor
  · intro hmem
    have hmf : c ∈ (chainPrefixes p).filter (fun q => isChildPath d q) :=
      List.mem_filter.mpr ⟨hmem, hc⟩
    rw [hf] at hmf
    cases himp : impliedChild d p with
    | none =>
      rw [himp] at hmf
      simp at hmf
    | some c' =>
      rw [himp] at hmf
      simp at hmf
      rw [hmf]
  · intro himp
    rw [himp] at hf
    have hmf : c ∈ (chainPrefixes p).filter (fun q => isChildPath d q) := by
      rw [hf]
      simp
    exact (List.mem_filter.mp hmf).1

/-- `firstOccurrences` over an appended singleton: the element survives iff
it was neither seen nor present in the list. -/
theorem firstOccurrences_append_single (c : List String) (l : List (List String)) :
    ∀ (seen : List (List String)),
      firstOccurrences seen (l ++ [c]) =
        firstOccurrences seen l ++ (if c ∈ seen ∨ c ∈ l then [] else [c]) := by
  induction l with
  | nil =>
    intro seen
    by_cases h : c ∈ seen <;> simp [firstOccurrences, h]
  | cons a l ih =>
    intro seen
    rw [List.cons_append]
    by_cases ha : a ∈ seen
    · simp only [firstOccurrences, ha, if_true]
      rw [ih seen]
      congr 1
      have hequiv : (c ∈ seen ∨ c ∈ l) ↔ (c ∈ seen ∨ c ∈ a :: l) := by
        constructor
        · rintro (h | h)
          · exact Or.inl h
          · exact Or.inr (List.mem_cons_of_mem _ h)
        · rintro (h | h)
          · exact Or.inl h
          · rcases List.mem_cons.mp h with rfl | h
            · exact Or.inl ha
            · exact Or.inr h
      exact if_congr hequiv rfl rfl
    · simp only [firstOccurrences, ha, if_false]
      rw [ih (a :: seen)]
      rw [List.cons_append]
      congr 1
      have hequiv : (c ∈ a :: seen ∨ c ∈ l) ↔ (c ∈ seen ∨ c ∈ a :: l) := by
        simp only [List.mem_cons]
        tauto
      congr 1
      exact if_congr hequiv rfl rfl

/-- `impliedPaths` over an appended entry. -/
theorem impliedPaths_append_single (pr : List StreamEntry) (e : StreamEntry) :
    impliedPaths (pr ++ [e]) = impliedPaths pr ++ chainPrefixes (normalizePath e.rawPath) := by
  simp [impliedPaths]

/-- `buildIndex` over an appended entry. -/
theorem buildIndex_append_single (pr : List StreamEntry) (e : StreamEntry) :
    buildIndex (pr ++ [e]) = addEntry (buildIndex pr) e := by
  rw [buildIndex, List.foldl_append]
  rfl

/-- Processing one entry appends, among the children of `d`, exactly the
child it implies — when that child is not already indexed. -/
theorem children_addEntry (e : StreamEntry) (idx : List IndexNode) (d : List String) :
    (childrenOf (addEntry idx e) d).map IndexNode.path =
      (childrenOf idx d).map IndexNode.path ++
        (match impliedChild d (normalizePath e.rawPath) with
         | some c => if containsPath idx c then [] else [c]
         | none => []) := by
  unfold addEntry
  rw [children_foldl_addMissing e (normalizePath e.rawPath) d
    (chainPrefixes (normalizePath e.rawPath)) idx (chainPrefixes_nodup _)]
  congr 1
  have hcomm : (fun q => isChildPath d q && !containsPath idx q) =
      fun q => !containsPath idx q && isChildPath d q := by
    funext q
    exact Bool.and_comm _ _
  rw [hcomm, ← List.filter_filter, filter_chainPrefixes]
  cases impliedChild d (normalizePath e.rawPath) with
  | none => simp
  | some c =>
    rw [List.filter_cons]
    by_cases hc : containsPath idx c = true <;> simp [hc]

/-- The index built from the stream holds exactly the implied paths, and
lists the children of every directory in first-appearance order. -/
theorem buildIndex_spec (entries : List StreamEntry) :
    (∀ q, q ∈ (buildIndex entries).map IndexNode.path ↔ q ∈ impliedPaths entries) ∧
    ∀ d, (childrenOf (buildIndex entries) d).map IndexNode.path =
      firstAppearanceChildren entries d := by
  induction entries using List.reverseRecOn with
  | nil =>
    constructor
    · intro q
      simp [buildIndex, impliedPaths]
    · intro d
      simp [buildIndex, childrenOf, firstAppearanceChildren, firstOccurrences]
  | append_singleton pr e ih =>
    obtain ⟨ihm, ihc⟩ := ih
    rw [buildIndex_append_single]
    constructor
    · intro q
      rw [show addEntry (buildIndex pr) e =
        (chainPrefixes (normalizePath e.rawPath)).foldl
          (addMissing e (normalizePath e.rawPath)) (buildIndex pr) from rfl]
      rw [mem_foldl_addMissing, impliedPaths_append_single, List.mem_append, ihm q]
    · intro d
      rw [children_addEntry, ihc d]
      simp only [firstAppearanceChildren]
      rw [List.filterMap_append]
      cases himp : impliedChild d (normalizePath e.rawPath) with
      | none =>
        simp only [List.filterMap_cons, himp, List.filterMap_nil, List.append_nil]
      | some c =>
        simp only [List.filterMap_cons, himp, List.filterMap_nil]
        rw [firstOccurrences_append_single c _ []]
        congr 1
        have hcc : containsPath (buildIndex pr) c = true ↔
            c ∈ pr.filterMap (fun e' => impliedChild d (normalizePath e'.rawPath)) := by
          rw [containsPath_iff, ihm c]
          rw [impliedPaths, List.mem_flatten]
          have hshape := isChildPath_of_impliedChild d _ c himp
          constructor
          · rintro ⟨l, hl, hcl⟩
            rw [List.mem_map] at hl
            obtain ⟨e', he', rfl⟩ := hl
            rw [List.mem_filterMap]
            exact ⟨e', he',
              (mem_chainPrefixes_iff_impliedChild d c hshape _).mp hcl⟩
          · intro hcf
            rw [List.mem_filterMap] at hcf
            obtain ⟨e', he', hce'⟩ := hcf
            exact ⟨chainPrefixes (normalizePath e'.rawPath),
              List.mem_map_of_mem _ he',
              (mem_chainPrefixes_iff_impliedChild d c hshape _).mpr hce'⟩
        by_cases hc : containsPath (buildIndex pr) c = true
        · rw [if_pos hc, if_pos (Or.inr (hcc.mp hc))]
        · rw [if_neg hc, if_neg ?hcond]
          case hcond =>
            rintro (habs | habs)
            · exact absurd habs (List.not_mem_nil c)
            · exact hc (hcc.mpr habs)

/-- A serialized node is named by the last segment of its path, at any
depth. -/
theorem serializeNode_name (idx : List IndexNode) (d : Nat) (n : IndexNode) :
    (serializeNode idx d n).name = lastName n.path := by
  cases d with
  | zero => rfl
  | succ d => cases hk : n.kind <;> simp [serializeNode, hk, TargetInfo.name]

/-- C5: whenever `get_target_info` on an archive-backed bundle returns a
node carrying a contents list, the names in that list are the node's
children in order of first physical appearance in the archive's entry
stream (`firstAppearanceChildren`), not in sorted order. -/
theorem contents_first_appearance (entries : List StreamEntry) (byteLen : Nat)
    (bname : String) (subpath : List String) (depth : Nat) (ti : TargetInfo)
    (cs : List TargetInfo)
    (h : get_target_info (BundleContents.archive entries byteLen) bname subpath depth = some ti)
    (hc : ti.contents = some cs) :
    cs.map TargetInfo.name = (firstAppearanceChildren entries subpath).map lastName := by
  have key : ∀ (dd : List String) (d : Nat),
      ((childrenOf (buildIndex entries) dd).map
        (fun c => serializeNode (buildIndex entries) d c)).map TargetInfo.name =
      (firstAppearanceChildren entries dd).map lastName := by
    intro dd d
    rw [List.map_map]
    have hfn : (TargetInfo.name ∘ fun c => serializeNode (buildIndex entries) d c) =
        fun c => lastName c.path := by
      funext c
      exact serializeNode_name _ _ _
    rw [hfn, ← (buildIndex_spec entries).2 dd, List.map_map]
    rfl
  by_cases hs : subpath = []
  · subst hs
    simp only [get_target_info, if_pos] at h
    cases depth with
    | zero =>
      rw [serializeArchiveRoot] at h
      cases h
      simp [TargetInfo.contents] at hc
    | succ d =>
      rw [serializeArchiveRoot] at h
      cases h
      simp only [TargetInfo.contents, Option.some.injEq] at hc
      subst hc
      exact key [] d
  · simp only [get_target_info, hs, if_false, Option.map_eq_some'] at h
    obtain ⟨n, hfind, hser⟩ := h
    have hpath : n.path = subpath := by
      have := List.find?_some hfind
      simpa using this
    subst hser
    cases depth with
    | zero => simp [serializeNode, TargetInfo.contents] at hc
    | succ d =>
      cases hk : n.kind with
      | file =>
        rw [serializeNode, hk] at hc
        simp [TargetInfo.contents] at hc
      | directory =>
        rw [serializeNode, hk] at hc
        simp only [TargetInfo.contents, Option.some.injEq] at hc
        subst hc
        rw [hpath]
        exact key subpath d

/-- Witness for C5 at the test archive's root with depth 1: the children
come back as `README.md`, `src`, `dist` — their first-appearance order in
the tar stream — which is not lexicographically sorted (`dist` < `src`). -/
theorem contents_first_appearance_witness :
    get_target_info testBundle "bundle" [] 1 =
      some (TargetInfo.mk "bundle" EntryKind.directory 246 511
        (some [TargetInfo.mk "README.md" EntryKind.file 11 420 none,
               TargetInfo.mk "src" EntryKind.directory 0 420 none,
               TargetInfo.mk "dist" EntryKind.directory 0 420 none])) ∧
    ([TargetInfo.mk "README.md" EntryKind.file 11 420 none,
      TargetInfo.mk "src" EntryKind.directory 0 420 none,
      TargetInfo.mk "dist" EntryKind.directory 0 420 none].map TargetInfo.name =
        (firstAppearanceChildren testEntries []).map lastName) ∧
    (firstAppearanceChildren testEntries []).map lastName = ["README.md", "src", "dist"] ∧
    isLexSorted ["README.md", "src", "dist"] = false :=
  ⟨rfl,
    contents_first_appearance testEntries 246 "bundle" [] 1
      (TargetInfo.mk "bundle" EntryKind.directory 246 511
        (some [TargetInfo.mk "README.md" EntryKind.file 11 420 none,
               TargetInfo.mk "src" EntryKind.directory 0 420 none,
               TargetInfo.mk "dist" EntryKind.directory 0 420 none]))
      [TargetInfo.mk "README.md" EntryKind.file 11 420 none,
       TargetInfo.mk "src" EntryKind.directory 0 420 none,
       TargetInfo.mk "dist" EntryKind.directory 0 420 none] rfl rfl,
    by decide, by decide⟩

end Codalab
